import Mathlib

/-!
Shallow embedding of the evernote-notion-compare repository (Python) and
verification of its specification claims.

The embedded modules are:
* `src/app/notion_list_records.py` — UUID normalization, rich-text title
  extraction, paginated search/query loops, exact-name data-source lookup;
* `src/app/notion_all_shared.py` — shared rich-text helpers and the unified
  `object_display_name` extractor;
* `src/app/enex_extract_note_info.py` — ENEX title collection and reporting;
* `src/tools/evernote_oath_local.py` — the local OAuth relay callback.

Python JSON-like values are modelled by `PyVal`; operations that can raise in
Python (attribute access on a non-dict, `str.join` over non-strings, dict
subscription) are modelled in `Except String`.
-/

set_option autoImplicit false

/-- A Python JSON-like value: None, str, int, bool, list, or dict with
string keys (insertion-ordered, as Python dicts are). -/
inductive PyVal where
  | none
  | str (s : String)
  | int (n : Int)
  | bool (b : Bool)
  | list (xs : List PyVal)
  | dict (kvs : List (String × PyVal))

/-- Python truthiness of a JSON-like value (`bool(v)`). -/
def PyVal.truthy : PyVal → Bool
  | .none => false
  | .str s => s ≠ ""
  | .int n => n ≠ 0
  | .bool b => b
  | .list xs => !xs.isEmpty
  | .dict kvs => !kvs.isEmpty

/-- Lookup of a key in an insertion-ordered key/value list (first hit wins,
as in a Python dict where keys are unique anyway). -/
def kvLookup (kvs : List (String × PyVal)) (k : String) : Option PyVal :=
  match kvs.find? (fun kv => kv.1 == k) with
  | some kv => some kv.2
  | Option.none => Option.none

/-- Python `v.get(k, dflt)`: returns the value or the default on a dict,
raises AttributeError on anything that is not a dict. -/
def pyGetD (v : PyVal) (k : String) (dflt : PyVal) : Except String PyVal :=
  match v with
  | .dict kvs =>
      match kvLookup kvs k with
      | some w => .ok w
      | Option.none => .ok dflt
  | _ => .error "AttributeError"

/-- Python `v.get(k)` (default None). -/
def pyGet (v : PyVal) (k : String) : Except String PyVal :=
  pyGetD v k .none

/-- Python `v[k]` on a dict: raises KeyError when missing, AttributeError-like
TypeError when `v` is not a dict. -/
def pySubscript (v : PyVal) (k : String) : Except String PyVal :=
  match v with
  | .dict kvs =>
      match kvLookup kvs k with
      | some w => .ok w
      | Option.none => .error "KeyError"
  | _ => .error "TypeError"

/-- Test whether a value is a given string literal (Python `v == "lit"` for a
string literal; values of other shapes compare unequal). -/
def PyVal.isStr (v : PyVal) (s : String) : Bool :=
  match v with
  | .str t => t == s
  | _ => false

/-- Strip whitespace from both ends of a character list (Python `str.strip`). -/
def stripList (cs : List Char) : List Char :=
  ((cs.dropWhile Char.isWhitespace).reverse.dropWhile Char.isWhitespace).reverse

/-- Python `s.strip()`. -/
def pyStrip (s : String) : String :=
  String.mk (stripList s.data)

/-- Python `s.lower()` (ASCII case folding, as used on hex/identifier text). -/
def pyLower (s : String) : String :=
  String.mk (s.data.map Char.toLower)

/-- Lowercase hexadecimal digit test: the character class `[0-9a-f]` of the
regular expression in `normalize_uuid`, stated on code points (48-57 are the
digits, 97-102 are the letters a-f). -/
def isHexLower (c : Char) : Bool :=
  (48 ≤ c.toNat && c.toNat ≤ 57) || (97 ≤ c.toNat && c.toNat ≤ 102)

/-- Insert hyphens at the fixed 8-4-4-4-12 offsets of a 32-character hex
string (the f-string of `normalize_uuid`). -/
def hyphenate (t : List Char) : String :=
  String.mk (t.take 8 ++ ('-' :: (t.drop 8).take 4) ++ ('-' :: (t.drop 12).take 4)
    ++ ('-' :: (t.drop 16).take 4) ++ ('-' :: (t.drop 20).take 12))

/-- Embedding of `normalize_uuid` (notion_list_records.py lines 16-24):
strip, lowercase, delete every non-`[0-9a-f]` character, require exactly 32
remaining characters, then re-hyphenate; otherwise raise ValueError. -/
def normalize_uuid (raw : String) : Except String String :=
  let s := pyLower (pyStrip raw)
  let t := s.data.filter isHexLower
  if t.length = 32 then .ok (hyphenate t) else .error "ValueError"

/-- Concatenation step of `"".join(x.get("plain_text", "") for x in rt)`:
each element must be a dict (else AttributeError) and its plain_text value
must be a string (else TypeError from join). -/
def rtConcat : List PyVal → Except String String
  | [] => .ok ""
  | x :: xs => do
      let p ← pyGetD x "plain_text" (.str "")
      match p with
      | .str s => do
          let rest ← rtConcat xs
          .ok (s ++ rest)
      | _ => .error "TypeError"

/-- Embedding of `_rt_to_text` (notion_list_records.py lines 32-35): on a
list, join the plain_text fragments and strip; on any other shape return
the empty string. -/
def _rt_to_text (rt : PyVal) : Except String String :=
  match rt with
  | .list xs => do
      let s ← rtConcat xs
      .ok (pyStrip s)
  | _ => .ok ""

/-- Embedding of `title_from_rich_text_array` (notion_all_shared.py lines
16-19); textually the same computation as `_rt_to_text`. -/
def title_from_rich_text_array (arr : PyVal) : Except String String :=
  match arr with
  | .list xs => do
      let s ← rtConcat xs
      .ok (pyStrip s)
  | _ => .ok ""

/-- Embedding of `extract_data_source_title` (notion_list_records.py lines
68-75): rich-text title first, else a non-blank plain string name, else "". -/
def extract_data_source_title (ds : PyVal) : Except String String := do
  let t ← _rt_to_text (← pyGet ds "title")
  if t ≠ "" then
    .ok t
  else do
    let name ← pyGet ds "name"
    match name with
    | .str n => if pyStrip n ≠ "" then .ok (pyStrip n) else .ok ""
    | _ => .ok ""

/-- One step of the property scan of `extract_page_title`: find the first
property value whose "type" field is the string "title". Elements are
inspected in insertion order; inspecting a non-dict property raises. -/
def findTitleProp : List PyVal → Except String (Option PyVal)
  | [] => .ok Option.none
  | prop :: rest => do
      let ty ← pyGet prop "type"
      if ty.isStr "title" then .ok (some prop) else findTitleProp rest

/-- Embedding of `extract_page_title` (notion_list_records.py lines 37-44):
scan `page.get("properties", {}) or {}` for the first title-typed property
and return its rich text (possibly empty); only when no title-typed property
exists fall through to the top-level "title" field. -/
def extract_page_title (page : PyVal) : Except String String := do
  let props ← pyGetD page "properties" (.dict [])
  let props := if props.truthy then props else .dict []
  match props with
  | .dict kvs => do
      match ← findTitleProp (kvs.map (·.2)) with
      | some prop => _rt_to_text (← pyGet prop "title")
      | Option.none => _rt_to_text (← pyGet page "title")
  | _ => .error "AttributeError"

/-- Embedding of `object_display_name` (notion_all_shared.py lines 22-34):
pages use the top-level rich-text title, else the id; data sources use the
rich-text title, else a stripped string name, else the id; any other object
type yields the id directly. The id default is the empty string. -/
def object_display_name (obj : PyVal) : Except String PyVal := do
  let o ← pyGet obj "object"
  if o.isStr "page" then do
    let t ← title_from_rich_text_array (← pyGet obj "title")
    if t ≠ "" then .ok (.str t) else pyGetD obj "id" (.str "")
  else if o.isStr "data_source" then do
    let t ← title_from_rich_text_array (← pyGet obj "title")
    if t ≠ "" then .ok (.str t)
    else do
      let name ← pyGet obj "name"
      match name with
      | .str n => .ok (.str (pyStrip n))
      | _ => pyGetD obj "id" (.str "")
  else
    pyGetD obj "id" (.str "")

/-- One page of a paginated endpoint response, after the `.get` accesses of
the loops: `resp.get("results", [])`, `resp.get("next_cursor")` (null when
absent), and the truthiness of `resp.get("has_more")`. -/
structure PageResp where
  results : List PyVal
  next_cursor : Option String
  has_more : Bool

/-- A run of a pagination loop driven against a trace: the sequence of page
responses the endpoint returns for the successive calls, in call order.
`traceTerm` is the shape of the specification scenarios: the has-more flag
is true on every page but the last and false on the last. -/
def traceTerm : List PageResp → Bool
  | [] => false
  | [p] => !p.has_more
  | p :: rest => p.has_more && traceTerm rest

/-- Request-payload cursor of the SDK branch of `query_data_source_pages`:
`start_cursor=cursor` is passed through unchanged. -/
def sdkStartCursor (cursor : Option String) : Option String :=
  cursor

/-- Request-payload cursor of the raw-HTTP branch of
`query_data_source_pages`: the payload carries start_cursor only when
`if cursor:` holds, i.e. the cursor is a non-empty string. -/
def httpStartCursor (cursor : Option String) : Option String :=
  match cursor with
  | some c => if c ≠ "" then some c else Option.none
  | Option.none => Option.none

/-- Embedding of the loop of `query_data_source_pages` (notion_list_records.py
lines 184-228) against a response trace. `useSdk` records which of the two
duck-typed branches runs (resolved once, before the loop, from
`getattr(notion, "data_sources", None)`); the branch only changes how the
request is built, so alongside the collected results the model returns the
list of start-cursor request parameters sent, one per endpoint call. A trace
too short for the loop (the endpoint would be called again) yields none. -/
def query_pages_loop (useSdk : Bool) (cursor : Option String) :
    List PageResp → Option (List PyVal × List (Option String))
  | [] => Option.none
  | p :: rest =>
      let req := if useSdk then sdkStartCursor cursor else httpStartCursor cursor
      if p.has_more then
        match query_pages_loop useSdk p.next_cursor rest with
        | some (rs, reqs) => some (p.results ++ rs, req :: reqs)
        | Option.none => Option.none
      else
        some (p.results, [req])

/-- Embedding of `query_data_source_pages`: run the loop from a null cursor
and return the collected results. -/
def query_data_source_pages (useSdk : Bool) (pages : List PageResp) :
    Option (List PyVal) :=
  match query_pages_loop useSdk Option.none pages with
  | some (rs, _) => some rs
  | Option.none => Option.none

/-- Sequential effectful map over a list (the per-item body of a Python
`for item in resp.get("results", [])` loop): stops at the first raising
item. -/
def mapE {α : Type} (f : PyVal → Except String α) : List PyVal → Except String (List α)
  | [] => .ok []
  | x :: xs => do
      let y ← f x
      let ys ← mapE f xs
      .ok (y :: ys)

/-- Per-item body of `list_all_data_sources` (notion_list_records.py lines
105-109): `title_parts = item.get("title") or []`, then join the plain_text
fragments and strip. A truthy non-list title field cannot be iterated into
dict fragments and raises. -/
def lads_item_title (item : PyVal) : Except String String := do
  let tp ← pyGet item "title"
  let tp := if tp.truthy then tp else .list []
  match tp with
  | .list xs => do
      let s ← rtConcat xs
      .ok (pyStrip s)
  | _ => .error "TypeError"

/-- Embedding of the loop of `list_all_data_sources` (notion_list_records.py
lines 94-115) against a response trace: returns the printed titles in order,
the item count the function reports, and the number of endpoint calls made. -/
def list_all_data_sources_loop :
    List PageResp → Except String (List String × Nat × Nat)
  | [] => .error "trace exhausted"
  | p :: rest => do
      let titles ← mapE lads_item_title p.results
      if p.has_more then do
        let (ts, n, calls) ← list_all_data_sources_loop rest
        .ok (titles ++ ts, p.results.length + n, calls + 1)
      else
        .ok (titles, p.results.length, 1)

/-- Embedding of `_page_title_from_search_obj` (notion_list_records.py lines
238-248): top-level rich-text title first, else the first title-typed
property's rich text, else "". -/
def _page_title_from_search_obj (obj : PyVal) : Except String String := do
  let t ← _rt_to_text (← pyGet obj "title")
  if t ≠ "" then .ok t
  else do
    let props ← pyGetD obj "properties" (.dict [])
    let props := if props.truthy then props else .dict []
    match props with
    | .dict kvs => do
        match ← findTitleProp (kvs.map (·.2)) with
        | some prop => _rt_to_text (← pyGet prop "title")
        | Option.none => .ok ""
    | _ => .error "AttributeError"

/-- Embedding of `_data_source_title_from_search_obj` (notion_list_records.py
lines 250-257); textually the same computation as
`extract_data_source_title`. -/
def _data_source_title_from_search_obj (obj : PyVal) : Except String String := do
  let t ← _rt_to_text (← pyGet obj "title")
  if t ≠ "" then
    .ok t
  else do
    let name ← pyGet obj "name"
    match name with
    | .str n => if pyStrip n ≠ "" then .ok (pyStrip n) else .ok ""
    | _ => .ok ""

/-- Per-item body of `list_visible_objects` (notion_list_records.py lines
273-281): the id (default "") and the displayed title, where an empty
extracted title is replaced by the placeholder via `or`. -/
def lvo_item (object_type : String) (item : PyVal) :
    Except String (PyVal × String) := do
  let oid ← pyGetD item "id" (.str "")
  let t ← if object_type == "page" then _page_title_from_search_obj item
          else _data_source_title_from_search_obj item
  let title := if t ≠ "" then t else "(no title returned)"
  .ok (oid, title)

/-- Embedding of the loop of `list_visible_objects` (notion_list_records.py
lines 260-287) against a response trace: returns the printed (id, title)
lines in order, the reported count, and the number of endpoint calls. -/
def list_visible_objects_loop (object_type : String) :
    List PageResp → Except String (List (PyVal × String) × Nat × Nat)
  | [] => .error "trace exhausted"
  | p :: rest => do
      let lines ← mapE (lvo_item object_type) p.results
      if p.has_more then do
        let (ls, n, calls) ← list_visible_objects_loop object_type rest
        .ok (lines ++ ls, p.results.length + n, calls + 1)
      else
        .ok (lines, p.results.length, 1)

/-- Per-item body of the match loop of `find_data_source_id_by_name`
(notion_list_records.py lines 151-156): skip items whose object field is not
"data_source", otherwise the item matches when its extracted title equals
`db_name` exactly. -/
def fds_item_matches (db_name : String) (item : PyVal) : Except String Bool := do
  let o ← pyGet item "object"
  if !o.isStr "data_source" then .ok false
  else do
    let t ← extract_data_source_title item
    .ok (t == db_name)

/-- Matching candidates of one result page, in result order. -/
def fds_page_matches (db_name : String) : List PyVal → Except String (List PyVal)
  | [] => .ok []
  | item :: rest => do
      let m ← fds_item_matches db_name item
      let ms ← fds_page_matches db_name rest
      .ok (if m then item :: ms else ms)

/-- Embedding of the search loop of `find_data_source_id_by_name`
(notion_list_records.py lines 142-160) against a response trace: the matches
accumulated over all pages, in server order. -/
def fds_loop (db_name : String) : List PageResp → Except String (List PyVal)
  | [] => .error "trace exhausted"
  | p :: rest => do
      let ms ← fds_page_matches db_name p.results
      if p.has_more then do
        let more ← fds_loop db_name rest
        .ok (ms ++ more)
      else
        .ok ms

/-- Embedding of `find_data_source_id_by_name` (notion_list_records.py lines
134-168): collect matches over all pages; raise LookupError when none,
otherwise return `matches[0]["id"]`. -/
def find_data_source_id_by_name (db_name : String) (pages : List PageResp) :
    Except String PyVal := do
  let found ← fds_loop db_name pages
  match found with
  | [] => .error "LookupError"
  | m :: _ => pySubscript m "id"

/-- Outcome of one request to the OAuth relay callback endpoint: the HTTP
status, the token file content after the request, and whether the
access-token exchange with the remote token endpoint was performed. -/
structure CallbackOutcome where
  status : Nat
  file : PyVal
  exchanged : Bool

/-- Embedding of `callback` (evernote_oath_local.py lines 90-127). The local
token file is read and subscripted for the request token pair first; a
missing file propagates a read fault and a missing key a KeyError. Then the
oauth_verifier request parameter is required (`if not oauth_verifier`): when
absent or empty the endpoint answers 400 without exchanging and without
touching the file. Otherwise the request pair is exchanged via the remote
token endpoint (modelled by the oracle `fetch_access_token`) and the file is
overwritten with the access pair. -/
def callback (fileContent : Option PyVal) (verifier : Option String)
    (fetch_access_token : PyVal → PyVal → String → PyVal) :
    Except String CallbackOutcome := do
  let data ← match fileContent with
    | some d => Except.ok d
    | Option.none => Except.error "FileNotFoundError"
  let req_token ← pySubscript data "request_oauth_token"
  let req_secret ← pySubscript data "request_oauth_token_secret"
  let proceed := match verifier with
    | some v => v ≠ ""
    | Option.none => false
  if !proceed then
    .ok { status := 400, file := data, exchanged := false }
  else do
    let v := verifier.getD ""
    let token := fetch_access_token req_token req_secret v
    let access_token ← pyGet token "oauth_token"
    let access_token_secret ← pyGet token "oauth_token_secret"
    .ok { status := 200,
          file := .dict [("access_token", access_token),
                         ("access_token_secret", access_token_secret)],
          exchanged := true }

/-- Embedding of `parse_enex_titles` (enex_extract_note_info.py lines 9-24):
a note is modelled by its title element — present with optional text, or
absent. Titles are `(title_elem.text or "").strip()` when the element exists
and "" otherwise, in document order. -/
def parse_enex_titles (notes : List (Option (Option String))) : List String :=
  notes.map fun n =>
    match n with
    | some txt => pyStrip (txt.getD "")
    | Option.none => ""

/-- Outcome of the ENEX command entry point: either the early exit on a
missing input file, or the report (total count, empty-title count, titles
printed when requested, process exit code). -/
inductive EnexOutcome where
  | missing_file
  | report (total : Nat) (empty_count : Nat) (printed : List String)
      (exit_code : Nat)

/-- Process exit code of an ENEX run (`sys.exit(2)` on a missing file). -/
def EnexOutcome.exitCode : EnexOutcome → Nat
  | .missing_file => 2
  | .report _ _ _ c => c

/-- Embedding of `main` (enex_extract_note_info.py lines 27-59): check the
input file exists, collect titles, report the total and the number of empty
titles, print titles under the print flag, and exit 1 exactly when
fail-on-empty-title is set and some title is empty, else fall through to
exit 0. -/
def enex_main (fileExists : Bool) (notes : List (Option (Option String)))
    (printFlag : Bool) (fail_on_empty_title : Bool) : EnexOutcome :=
  if !fileExists then .missing_file
  else
    let titles := parse_enex_titles notes
    let empty_count := (titles.filter (fun t => t = "")).length
    let printed := if printFlag then titles else []
    let exit_code := if fail_on_empty_title && empty_count ≠ 0 then 1 else 0
    .report titles.length empty_count printed exit_code

/-! ### Specification-level total extractors and shape predicates
(claims C2 and C6) -/

/-- Total field access used by the specification-level extractors: a missing
key or a non-dict container reads as None (missing is empty, not error). -/
def totGet (v : PyVal) (k : String) : PyVal :=
  match v with
  | .dict kvs => (kvLookup kvs k).getD .none
  | _ => .none

/-- Total field access with an explicit default. -/
def totGetD (v : PyVal) (k : String) (dflt : PyVal) : PyVal :=
  match v with
  | .dict kvs => (kvLookup kvs k).getD dflt
  | _ => dflt

/-- Contribution of one rich-text fragment: its string plain_text when
present, the empty string otherwise. -/
def totRtFrag (x : PyVal) : String :=
  match x with
  | .dict kvs =>
      match kvLookup kvs "plain_text" with
      | some (.str s) => s
      | _ => ""
  | _ => ""

def totRtConcat : List PyVal → String
  | [] => ""
  | x :: xs => totRtFrag x ++ totRtConcat xs

/-- Total rich-text extraction: concatenate the fragments of a run list and
trim; any non-list shape reads as the empty string. -/
def totRtText (v : PyVal) : String :=
  match v with
  | .list xs => pyStrip (totRtConcat xs)
  | _ => ""

/-- A rich-text element is well shaped when it is a dict whose plain_text,
if present, is a string (the shapes on which Python `x.get`/`str.join` do
not raise). -/
def rtElemOkB (x : PyVal) : Bool :=
  match x with
  | .dict kvs =>
      match kvLookup kvs "plain_text" with
      | some (.str _) => true
      | some _ => false
      | Option.none => true
  | _ => false

/-- A rich-text field is well shaped when it is not a list, or is a list of
well-shaped elements. -/
def rtOkB (v : PyVal) : Bool :=
  match v with
  | .list xs => xs.all rtElemOkB
  | _ => true

/-- Shape under which `extract_data_source_title` cannot raise: a dict whose
title field is a well-shaped rich-text field. -/
def dsItemOkB (item : PyVal) : Bool :=
  match item with
  | .dict _ => rtOkB (totGet item "title")
  | _ => false

/-- Dict-shape test. -/
def isDictB (v : PyVal) : Bool :=
  match v with
  | .dict _ => true
  | _ => false

/-- The property-map value `page.get("properties", {}) or {}` of
`extract_page_title`. -/
def pagePropsVal (item : PyVal) : PyVal :=
  let p := totGetD item "properties" (.dict [])
  if p.truthy then p else .dict []

/-- First property whose declared type is "title", in insertion order. -/
def titlePropOf (item : PyVal) : Option PyVal :=
  match pagePropsVal item with
  | .dict kvs =>
      (kvs.find? (fun kv => (totGet kv.2 "type").isStr "title")).map (·.2)
  | _ => Option.none

/-- Shape under which `extract_page_title` cannot raise: a dict whose
properties value is a dict of dicts (or falsy/absent), with a well-shaped
rich-text field at the place the scan ends up reading. -/
def pageItemOkB (item : PyVal) : Bool :=
  match item with
  | .dict _ =>
      (match pagePropsVal item with
       | .dict kvs => kvs.all fun kv => isDictB kv.2
       | _ => false) &&
      (match titlePropOf item with
       | some prop => rtOkB (totGet prop "title")
       | Option.none => rtOkB (totGet item "title"))
  | _ => false

/-- Amended behaviour of `extract_data_source_title`: trimmed rich-text
title when non-empty, else the trimmed string name (possibly empty), else
the empty string — never the identifier. -/
def amendedDsTitle (item : PyVal) : String :=
  let t := totRtText (totGet item "title")
  if t ≠ "" then t
  else
    match totGet item "name" with
    | .str n => pyStrip n
    | _ => ""

/-- Amended behaviour of `extract_page_title`: the rich text of the first
title-typed property when one exists (even when that text is empty), else
the top-level rich-text title — never the identifier. -/
def amendedPageTitle (item : PyVal) : String :=
  match titlePropOf item with
  | some prop => totRtText (totGet prop "title")
  | Option.none => totRtText (totGet item "title")

/-- Modelled from the claim: the five-rule fallback extractor of C2 — (1)
rich text at the conventional title field; (2) for container/database-like
objects a non-blank plain-string name; (3) for page-like objects the rich
text of the title-typed property; (4) the identifier string; (5) the empty
string. First non-empty match wins; every rule trims whitespace. -/
def claimFiveRuleTitle (item : PyVal) : String :=
  let t1 := totRtText (totGet item "title")
  if t1 ≠ "" then t1
  else
    let isContainer := (totGet item "object").isStr "data_source"
      || (totGet item "object").isStr "database"
    let t2 := match totGet item "name" with
      | .str n => pyStrip n
      | _ => ""
    if isContainer = true ∧ t2 ≠ "" then t2
    else
      let t3 := match titlePropOf item with
        | some prop => totRtText (totGet prop "title")
        | Option.none => ""
      if (totGet item "object").isStr "page" = true ∧ t3 ≠ "" then t3
      else
        match totGet item "id" with
        | .str i => pyStrip i
        | _ => ""

/-- Number of characters of a string that are hexadecimal digits ignoring
case: the count left after stripping all non-hex characters
case-insensitively. -/
def hexCountCI (s : String) : Nat :=
  s.data.countP (fun c => isHexLower c.toLower)

/-- Concrete two-page trace for the pagination witness: page 1 has more with
cursor c1, page 2 is last but still carries a non-null next cursor. -/
def c1item1 : PyVal :=
  .dict [("id", .str "a1"), ("title", .list [.dict [("plain_text", .str "Alpha")]])]

def c1item2 : PyVal := .dict [("id", .str "a2"), ("title", .list [])]

def c1trace : List PageResp :=
  [⟨[c1item1], some "c1", true⟩, ⟨[c1item2], some "dangling", false⟩]

/-- Candidates of the exact-match scenario: three data sources titled
"Projects", "projects" and "Projects " (with trailing space). -/
def projDs1 : PyVal :=
  .dict [("object", .str "data_source"), ("id", .str "id1"),
    ("title", .list [.dict [("plain_text", .str "Projects")]])]

def projDs2 : PyVal :=
  .dict [("object", .str "data_source"), ("id", .str "id2"),
    ("title", .list [.dict [("plain_text", .str "projects")]])]

def projDs3 : PyVal :=
  .dict [("object", .str "data_source"), ("id", .str "id3"),
    ("title", .list [.dict [("plain_text", .str "Projects ")]])]

def projTrace : List PageResp :=
  [⟨[projDs1, projDs2, projDs3], Option.none, false⟩]

/-- Counterexample input for C2: a data-source object carrying only an
identifier. -/
def c2dsOnlyId : PyVal := .dict [("object", .str "data_source"), ("id", .str "abc")]

/-- Counterexample input for C2: a page whose title-typed property is empty
while a top-level rich-text title is present. -/
def c2pageShadow : PyVal :=
  .dict [("properties",
      .dict [("p", .dict [("type", .str "title"), ("title", .list [])])]),
    ("title", .list [.dict [("plain_text", .str "Top")]])]

/-- Witness input: rich-text title " T " plus a plain name. -/
def c2wItem : PyVal :=
  .dict [("title", .list [.dict [("plain_text", .str " T ")]]), ("name", .str "N")]

/-! ### Character and whitespace lemmas -/

theorem hexLower_not_ws {c : Char} (h : isHexLower c = true) :
    c.isWhitespace = false := by
  simp only [isHexLower, Bool.or_eq_true, Bool.and_eq_true, decide_eq_true_eq] at h
  simp only [Char.isWhitespace, Bool.or_eq_false_iff, decide_eq_false_iff_not]
  refine ⟨⟨⟨?_, ?_⟩, ?_⟩, ?_⟩ <;> rintro rfl <;> revert h <;> decide

theorem ws_not_hexLower_toLower {c : Char} (h : c.isWhitespace = true) :
    isHexLower c.toLower = false := by
  simp only [Char.isWhitespace, Bool.or_eq_true, decide_eq_true_eq] at h
  rcases h with (((rfl | rfl) | rfl) | rfl) <;> decide

theorem hexLower_toLower {c : Char} (h : isHexLower c = true) :
    c.toLower = c := by
  simp only [isHexLower, Bool.or_eq_true, Bool.and_eq_true, decide_eq_true_eq] at h
  simp only [Char.toLower]
  rw [if_neg (by omega)]

/-! ### Strip lemmas -/

theorem dropWhile_eq_self_of_all {p : Char → Bool} :
    ∀ {l : List Char}, (∀ c ∈ l, p c = false) → l.dropWhile p = l
  | [], _ => rfl
  | a :: l, h => by
      rw [List.dropWhile_cons, h a (List.mem_cons_self a l)]
      simp

theorem stripList_eq_self {l : List Char}
    (h : ∀ c ∈ l, c.isWhitespace = false) : stripList l = l := by
  unfold stripList
  rw [dropWhile_eq_self_of_all h,
    dropWhile_eq_self_of_all (fun c hc => h c (List.mem_reverse.mp hc)),
    List.reverse_reverse]

theorem countP_dropWhile {p q : Char → Bool} (hpq : ∀ c, q c = true → p c = false) :
    ∀ l : List Char, (l.dropWhile q).countP p = l.countP p
  | [] => rfl
  | a :: l => by
      rw [List.dropWhile_cons]
      by_cases hq : q a = true
      · rw [if_pos hq, countP_dropWhile hpq l, List.countP_cons, hpq a hq]
        simp
      · rw [if_neg hq]

theorem countP_reverse_chars (p : Char → Bool) (l : List Char) :
    l.reverse.countP p = l.countP p := by
  rw [List.countP_eq_length_filter, List.filter_reverse, List.length_reverse,
    ← List.countP_eq_length_filter]

theorem countP_stripList {p : Char → Bool}
    (hp : ∀ c, c.isWhitespace = true → p c = false) (l : List Char) :
    (stripList l).countP p = l.countP p := by
  unfold stripList
  rw [countP_reverse_chars, countP_dropWhile hp, countP_reverse_chars,
    countP_dropWhile hp]

/-! ### normalize_uuid: claims C4 and C8 -/

theorem normalize_core (raw : String) :
    ((pyLower (pyStrip raw)).data.filter isHexLower).length = hexCountCI raw := by
  show (((stripList raw.data).map Char.toLower).filter isHexLower).length = _
  rw [← List.countP_eq_length_filter, List.countP_map]
  show List.countP (fun c => isHexLower c.toLower) (stripList raw.data) = _
  rw [countP_stripList (fun c hc => ws_not_hexLower_toLower hc)]
  rfl

theorem normalize_uuid_eq (raw : String) :
    normalize_uuid raw =
      if ((pyLower (pyStrip raw)).data.filter isHexLower).length = 32
      then .ok (hyphenate ((pyLower (pyStrip raw)).data.filter isHexLower))
      else .error "ValueError" := rfl

/-- C4: `normalize_uuid` raises a validation fault if and only if the input,
after stripping all non-hexadecimal characters case-insensitively, does not
contain exactly 32 hex characters; when it succeeds the result is a lowercase
hyphenated form: hyphens re-inserted at the fixed 8-4-4-4-12 offsets into a
32-character lowercase hex string. -/
theorem C4_normalize_uuid_validation (raw : String) :
    ((∃ e, normalize_uuid raw = .error e) ↔ hexCountCI raw ≠ 32) ∧
    (∀ r, normalize_uuid raw = .ok r →
      ∃ t : List Char, t.length = 32 ∧ (∀ c ∈ t, isHexLower c = true) ∧
        r = hyphenate t) := by
  have hlen := normalize_core raw
  by_cases h : ((pyLower (pyStrip raw)).data.filter isHexLower).length = 32
  · have hok : normalize_uuid raw
        = .ok (hyphenate ((pyLower (pyStrip raw)).data.filter isHexLower)) := by
      rw [normalize_uuid_eq, if_pos h]
    refine ⟨⟨?_, ?_⟩, ?_⟩
    · rintro ⟨e, he⟩
      rw [hok] at he
      exact absurd he (by simp)
    · intro hne
      exact absurd (hlen ▸ h) hne
    · intro r hr
      rw [hok] at hr
      exact ⟨(pyLower (pyStrip raw)).data.filter isHexLower, h,
        fun c hc => List.of_mem_filter hc, (Except.ok.inj hr).symm⟩
  · have herr : normalize_uuid raw = .error "ValueError" := by
      rw [normalize_uuid_eq, if_neg h]
    refine ⟨⟨?_, ?_⟩, ?_⟩
    · intro _
      rw [← hlen]
      exact h
    · intro _
      exact ⟨"ValueError", herr⟩
    · intro r hr
      rw [herr] at hr
      exact absurd hr (by simp)

theorem C4_witness :
    (∃ t : List Char, t.length = 32 ∧ (∀ c ∈ t, isHexLower c = true) ∧
      "00112233-4455-6677-8899-aabbccddeeff" = hyphenate t) ∧
    (∃ e, normalize_uuid "123" = .error e) :=
  ⟨(C4_normalize_uuid_validation "00112233445566778899AabbCcddeeff").2
      "00112233-4455-6677-8899-aabbccddeeff" (by rfl),
    (C4_normalize_uuid_validation "123").1.mpr (by decide)⟩

theorem hyphenate_chars {t : List Char} (hhex : ∀ c ∈ t, isHexLower c = true) :
    ∀ c ∈ (hyphenate t).data, isHexLower c = true ∨ c = '-' := by
  intro c hc
  have hc' : c ∈ t.take 8 ++ ('-' :: (t.drop 8).take 4) ++ ('-' :: (t.drop 12).take 4)
      ++ ('-' :: (t.drop 16).take 4) ++ ('-' :: (t.drop 20).take 12) := hc
  simp only [List.mem_append, List.mem_cons] at hc'
  rcases hc' with ((((h | h) | h) | h) | h)
  · exact Or.inl (hhex c (List.mem_of_mem_take h))
  · rcases h with rfl | h
    · exact Or.inr rfl
    · exact Or.inl (hhex c (List.mem_of_mem_drop (List.mem_of_mem_take h)))
  · rcases h with rfl | h
    · exact Or.inr rfl
    · exact Or.inl (hhex c (List.mem_of_mem_drop (List.mem_of_mem_take h)))
  · rcases h with rfl | h
    · exact Or.inr rfl
    · exact Or.inl (hhex c (List.mem_of_mem_drop (List.mem_of_mem_take h)))
  · rcases h with rfl | h
    · exact Or.inr rfl
    · exact Or.inl (hhex c (List.mem_of_mem_drop (List.mem_of_mem_take h)))

theorem filter_hyphenate {t : List Char} (hlen : t.length = 32)
    (hhex : ∀ c ∈ t, isHexLower c = true) :
    (hyphenate t).data.filter isHexLower = t := by
  have hseg : ∀ k : Nat, (t.drop k).take 4 ++ t.drop (4 + k) = t.drop k := by
    intro k
    conv_rhs => rw [← List.take_append_drop 4 (t.drop k)]
    rw [List.drop_drop, Nat.add_comm]
  have h8 := hseg 8
  have h12 := hseg 12
  have h16 := hseg 16
  norm_num at h8 h12 h16
  have e20 : (t.drop 20).take 12 = t.drop 20 :=
    List.take_of_length_le (by simp [hlen])
  show (t.take 8 ++ ('-' :: (t.drop 8).take 4) ++ ('-' :: (t.drop 12).take 4)
    ++ ('-' :: (t.drop 16).take 4) ++ ('-' :: (t.drop 20).take 12)).filter isHexLower = t
  rw [List.filter_append, List.filter_append, List.filter_append, List.filter_append]
  rw [List.filter_cons_of_neg (by decide), List.filter_cons_of_neg (by decide),
    List.filter_cons_of_neg (by decide), List.filter_cons_of_neg (by decide)]
  rw [List.filter_eq_self.mpr (fun c hc => hhex c (List.mem_of_mem_take hc)),
    List.filter_eq_self.mpr
      (fun c hc => hhex c (List.mem_of_mem_drop (List.mem_of_mem_take hc))),
    List.filter_eq_self.mpr
      (fun c hc => hhex c (List.mem_of_mem_drop (List.mem_of_mem_take hc))),
    List.filter_eq_self.mpr
      (fun c hc => hhex c (List.mem_of_mem_drop (List.mem_of_mem_take hc))),
    List.filter_eq_self.mpr
      (fun c hc => hhex c (List.mem_of_mem_drop (List.mem_of_mem_take hc)))]
  rw [e20, List.append_assoc, List.append_assoc, List.append_assoc, h16, h12, h8]
  exact List.take_append_drop 8 t

theorem normalize_uuid_hyphenate {t : List Char} (hlen : t.length = 32)
    (hhex : ∀ c ∈ t, isHexLower c = true) :
    normalize_uuid (hyphenate t) = .ok (hyphenate t) := by
  have hchars := hyphenate_chars hhex
  have hnws : ∀ c ∈ (hyphenate t).data, c.isWhitespace = false := by
    intro c hc
    rcases hchars c hc with h | rfl
    · exact hexLower_not_ws h
    · decide
  have htl : ∀ c ∈ (hyphenate t).data, Char.toLower c = c := by
    intro c hc
    rcases hchars c hc with h | rfl
    · exact hexLower_toLower h
    · decide
  have h1 : pyStrip (hyphenate t) = hyphenate t := by
    show String.mk (stripList (hyphenate t).data) = hyphenate t
    rw [stripList_eq_self hnws]
  have h2 : pyLower (hyphenate t) = hyphenate t := by
    show String.mk ((hyphenate t).data.map Char.toLower) = hyphenate t
    rw [List.map_congr_left htl, List.map_id']
  rw [normalize_uuid_eq, h1, h2, filter_hyphenate hlen hhex, if_pos hlen]

/-- C8: for every identifier with exactly 32 hex characters ignoring
separators and case, `normalize_uuid` succeeds with a canonical hyphenated
lowercase-hex form, and normalizing that form again returns it unchanged
(idempotence). -/
theorem C8_normalize_uuid_idempotent (raw : String) (h : hexCountCI raw = 32) :
    ∃ t : List Char, t.length = 32 ∧ (∀ c ∈ t, isHexLower c = true) ∧
      normalize_uuid raw = .ok (hyphenate t) ∧
      normalize_uuid (hyphenate t) = .ok (hyphenate t) := by
  have hlen := normalize_core raw
  rw [h] at hlen
  exact ⟨(pyLower (pyStrip raw)).data.filter isHexLower, hlen,
    fun c hc => List.of_mem_filter hc,
    by rw [normalize_uuid_eq, if_pos hlen],
    normalize_uuid_hyphenate hlen (fun c hc => List.of_mem_filter hc)⟩

theorem C8_witness :
    hexCountCI "25C9cf4a-d973-800e-a21f-ec1c8aae6b96" = 32 ∧
    ∃ t : List Char, t.length = 32 ∧ (∀ c ∈ t, isHexLower c = true) ∧
      normalize_uuid "25C9cf4a-d973-800e-a21f-ec1c8aae6b96" = .ok (hyphenate t) ∧
      normalize_uuid (hyphenate t) = .ok (hyphenate t) :=
  ⟨by rfl, C8_normalize_uuid_idempotent "25C9cf4a-d973-800e-a21f-ec1c8aae6b96" (by rfl)⟩

/-! ### Strip idempotence and claim C5 -/

theorem head?_dropWhile_false {p : Char → Bool} :
    ∀ (l : List Char) (c : Char), (l.dropWhile p).head? = some c → p c = false := by
  intro l
  induction l with
  | nil =>
      intro c hc
      simp [List.dropWhile] at hc
  | cons a l ih =>
      intro c hc
      rw [List.dropWhile_cons] at hc
      by_cases h : p a = true
      · rw [if_pos h] at hc
        exact ih c hc
      · rw [if_neg h] at hc
        simp only [List.head?_cons, Option.some.injEq] at hc
        subst hc
        simp only [Bool.not_eq_true] at h
        exact h

theorem stripList_head_ws {l : List Char} {c : Char}
    (h : (stripList l).head? = some c) : c.isWhitespace = false := by
  unfold stripList at h
  rw [List.head?_reverse] at h
  have hne : (l.dropWhile Char.isWhitespace).reverse.dropWhile Char.isWhitespace
      ≠ [] := by
    intro h0
    rw [h0] at h
    simp at h
  obtain ⟨pre, hpre⟩ :=
    List.dropWhile_suffix (l := (l.dropWhile Char.isWhitespace).reverse)
      Char.isWhitespace
  have hlast : (l.dropWhile Char.isWhitespace).reverse.getLast? = some c := by
    rw [← hpre, List.getLast?_append_of_ne_nil _ hne, h]
  rw [List.getLast?_reverse] at hlast
  exact head?_dropWhile_false l c hlast

theorem stripList_getLast_ws {l : List Char} {c : Char}
    (h : (stripList l).getLast? = some c) : c.isWhitespace = false := by
  unfold stripList at h
  rw [List.getLast?_reverse] at h
  exact head?_dropWhile_false _ c h

theorem stripList_eq_self_of_bounds {m : List Char}
    (hh : ∀ c, m.head? = some c → c.isWhitespace = false)
    (hl : ∀ c, m.getLast? = some c → c.isWhitespace = false) :
    stripList m = m := by
  have h1 : m.dropWhile Char.isWhitespace = m := by
    cases m with
    | nil => rfl
    | cons a t =>
        rw [List.dropWhile_cons, hh a rfl]
        simp
  have h2 : m.reverse.dropWhile Char.isWhitespace = m.reverse := by
    rcases hr : m.reverse with _ | ⟨a, t⟩
    · rfl
    · rw [List.dropWhile_cons,
        hl a (by rw [List.getLast?_eq_head?_reverse, hr]; rfl)]
      simp
  unfold stripList
  rw [h1, h2, List.reverse_reverse]

theorem stripList_idem (l : List Char) : stripList (stripList l) = stripList l :=
  stripList_eq_self_of_bounds (fun _ hc => stripList_head_ws hc)
    (fun _ hc => stripList_getLast_ws hc)

theorem pyStrip_idem (s : String) : pyStrip (pyStrip s) = pyStrip s := by
  show String.mk (stripList (stripList s.data)) = String.mk (stripList s.data)
  rw [stripList_idem]

theorem except_bind_ok {α β : Type} (a : α) (f : α → Except String β) :
    (Except.ok a >>= f) = f a := rfl

theorem except_bind_error {α β : Type} (e : String) (f : α → Except String β) :
    ((Except.error e : Except String α) >>= f) = Except.error e := rfl

theorem rt_ok_stripped (R : PyVal) (s : String) (h : _rt_to_text R = .ok s) :
    pyStrip s = s := by
  cases R with
  | list xs =>
      simp only [_rt_to_text] at h
      cases hc : rtConcat xs with
      | error e =>
          rw [hc, except_bind_error] at h
          exact absurd h (by simp)
      | ok t =>
          rw [hc, except_bind_ok] at h
          cases h
          exact pyStrip_idem t
  | none => cases h; rfl
  | str a => cases h; rfl
  | int a => cases h; rfl
  | bool a => cases h; rfl
  | dict a => cases h; rfl

theorem tfrta_eq_rt (v : PyVal) : title_from_rich_text_array v = _rt_to_text v := by
  cases v <;> rfl

/-- C5: the concatenate-plain-text-then-trim extraction is idempotent: a
string already produced by the extraction is returned unchanged when it is
extracted again (as the sole plain-text run), for both `_rt_to_text` and
`title_from_rich_text_array`. -/
theorem C5_rt_extraction_idempotent (R : PyVal) (s : String) :
    (_rt_to_text R = .ok s →
      _rt_to_text (.list [.dict [("plain_text", .str s)]]) = .ok s) ∧
    (title_from_rich_text_array R = .ok s →
      title_from_rich_text_array (.list [.dict [("plain_text", .str s)]]) = .ok s) := by
  have key : pyStrip s = s →
      _rt_to_text (.list [.dict [("plain_text", .str s)]]) = .ok s := by
    intro hs
    have h1 : _rt_to_text (.list [.dict [("plain_text", .str s)]])
        = .ok (pyStrip (s ++ "")) := rfl
    have h2 : s ++ "" = s := by
      show String.mk (s.data ++ []) = s
      rw [List.append_nil]
    rw [h1, h2, hs]
  refine ⟨fun h => key (rt_ok_stripped R s h), fun h => ?_⟩
  rw [tfrta_eq_rt] at h
  rw [tfrta_eq_rt]
  exact key (rt_ok_stripped R s h)

theorem C5_witness :
    _rt_to_text (.list [.dict [("plain_text", .str "hi")]]) = .ok "hi" ∧
    title_from_rich_text_array (.list [.dict [("plain_text", .str "hi")]]) = .ok "hi" :=
  ⟨(C5_rt_extraction_idempotent (.list [.dict [("plain_text", .str " hi ")]]) "hi").1
      (by rfl),
   (C5_rt_extraction_idempotent (.list [.dict [("plain_text", .str " hi ")]]) "hi").2
      (by rfl)⟩

/-! ### Pagination: claims C10 and C1 -/

theorem query_loop_branch_fst :
    ∀ (pages : List PageResp) (c : Option String),
      Option.map Prod.fst (query_pages_loop true c pages)
        = Option.map Prod.fst (query_pages_loop false c pages) := by
  intro pages
  induction pages with
  | nil => intro c; rfl
  | cons p rest ih =>
      intro c
      by_cases hm : p.has_more
      · have hfst := ih p.next_cursor
        cases h1 : query_pages_loop true p.next_cursor rest with
        | none =>
            cases h2 : query_pages_loop false p.next_cursor rest with
            | none => simp [query_pages_loop, hm, h1, h2]
            | some w =>
                rw [h1, h2] at hfst
                simp at hfst
        | some v =>
            cases h2 : query_pages_loop false p.next_cursor rest with
            | none =>
                rw [h1, h2] at hfst
                simp at hfst
            | some w =>
                rw [h1, h2] at hfst
                simp only [Option.map_some', Option.some.injEq] at hfst
                simp [query_pages_loop, hm, h1, h2, hfst]
      · simp [query_pages_loop, hm]

/-- C10: the SDK branch and the raw-HTTP fallback branch of
`query_data_source_pages` collect the same results from the same sequence of
endpoint responses: the duck-typed branch choice never changes the returned
value. -/
theorem C10_query_branches_equivalent (pages : List PageResp) :
    query_data_source_pages true pages = query_data_source_pages false pages := by
  have h := query_loop_branch_fst pages Option.none
  unfold query_data_source_pages
  cases h1 : query_pages_loop true Option.none pages with
  | none =>
      cases h2 : query_pages_loop false Option.none pages with
      | none => rfl
      | some w =>
          rw [h1, h2] at h
          simp at h
  | some v =>
      cases h2 : query_pages_loop false Option.none pages with
      | none =>
          rw [h1, h2] at h
          simp at h
      | some w =>
          rw [h1, h2] at h
          simp only [Option.map_some', Option.some.injEq] at h
          simp [h]

theorem query_pages_loop_cons (b : Bool) (c : Option String) (p : PageResp)
    (rest : List PageResp) :
    query_pages_loop b c (p :: rest)
      = (if p.has_more then
          match query_pages_loop b p.next_cursor rest with
          | some (rs, reqs) =>
              some (p.results ++ rs,
                (if b then sdkStartCursor c else httpStartCursor c) :: reqs)
          | Option.none => Option.none
        else
          some (p.results, [if b then sdkStartCursor c else httpStartCursor c])) :=
  rfl

theorem query_loop_trace (b : Bool) :
    ∀ (pages : List PageResp), traceTerm pages = true → ∀ c,
      ∃ reqs, query_pages_loop b c pages
          = some ((pages.map (·.results)).flatten, reqs) ∧
        reqs.length = pages.length := by
  intro pages
  induction pages with
  | nil =>
      intro h
      simp [traceTerm] at h
  | cons p rest ih =>
      intro h c
      cases rest with
      | nil =>
          have hm : p.has_more = false := by simpa [traceTerm] using h
          refine ⟨[if b then sdkStartCursor c else httpStartCursor c], ?_, rfl⟩
          rw [query_pages_loop_cons, hm]
          simp
      | cons q rest' =>
          have h' : (p.has_more && traceTerm (q :: rest')) = true := h
          have hm : p.has_more = true := (Bool.and_eq_true _ _ |>.mp h').1
          have ht : traceTerm (q :: rest') = true := (Bool.and_eq_true _ _ |>.mp h').2
          obtain ⟨reqs, hq, hlen⟩ := ih ht p.next_cursor
          refine ⟨(if b then sdkStartCursor c else httpStartCursor c) :: reqs, ?_, ?_⟩
          · rw [query_pages_loop_cons, hm, hq]
            simp
          · simp [hlen]

theorem mapE_append_inv {α : Type} (f : PyVal → Except String α) :
    ∀ (l₁ l₂ : List PyVal) (ts : List α),
      mapE f (l₁ ++ l₂) = .ok ts →
      ∃ ts₁ ts₂, mapE f l₁ = .ok ts₁ ∧ mapE f l₂ = .ok ts₂ ∧ ts = ts₁ ++ ts₂ := by
  intro l₁
  induction l₁ with
  | nil =>
      intro l₂ ts h
      exact ⟨[], ts, rfl, h, rfl⟩
  | cons x l ih =>
      intro l₂ ts h
      rw [List.cons_append] at h
      simp only [mapE] at h
      cases hf : f x with
      | error e =>
          rw [hf, except_bind_error] at h
          exact absurd h (by simp)
      | ok y =>
          rw [hf, except_bind_ok] at h
          cases hm : mapE f (l ++ l₂) with
          | error e =>
              rw [hm, except_bind_error] at h
              exact absurd h (by simp)
          | ok ys =>
              rw [hm, except_bind_ok] at h
              cases h
              obtain ⟨ts₁, ts₂, h1, h2, h3⟩ := ih l₂ ys hm
              refine ⟨y :: ts₁, ts₂, ?_, h2, by rw [h3, List.cons_append]⟩
              simp only [mapE]
              rw [hf, except_bind_ok, h1, except_bind_ok]

theorem lads_loop_cons (p : PageResp) (rest : List PageResp) :
    list_all_data_sources_loop (p :: rest) = (do
      let titles ← mapE lads_item_title p.results
      if p.has_more then do
        let (ts, n, calls) ← list_all_data_sources_loop rest
        Except.ok (titles ++ ts, p.results.length + n, calls + 1)
      else
        Except.ok (titles, p.results.length, 1)) := rfl

theorem lads_loop_trace :
    ∀ (pages : List PageResp), traceTerm pages = true →
      ∀ ts, mapE lads_item_title ((pages.map (·.results)).flatten) = .ok ts →
        list_all_data_sources_loop pages
          = .ok (ts, ((pages.map (·.results)).flatten).length, pages.length) := by
  intro pages
  induction pages with
  | nil =>
      intro h
      simp [traceTerm] at h
  | cons p rest ih =>
      intro h ts hts
      have hflat : (((p :: rest).map (·.results)).flatten)
          = p.results ++ ((rest.map (·.results)).flatten) := by simp
      rw [hflat] at hts
      obtain ⟨ts₁, ts₂, h1, h2, h3⟩ := mapE_append_inv _ _ _ _ hts
      cases rest with
      | nil =>
          have hm : p.has_more = false := by simpa [traceTerm] using h
          rw [lads_loop_cons, h1, except_bind_ok, hm]
          have h2' : ts₂ = [] := by
            cases h2
            rfl
          subst h2'
          subst h3
          simp
      | cons q rest' =>
          have h' : (p.has_more && traceTerm (q :: rest')) = true := h
          have hm : p.has_more = true := (Bool.and_eq_true _ _ |>.mp h').1
          have ht : traceTerm (q :: rest') = true := (Bool.and_eq_true _ _ |>.mp h').2
          have hrec := ih ht ts₂ h2
          rw [lads_loop_cons, h1, except_bind_ok, hm, hrec]
          subst h3
          simp [except_bind_ok]

theorem lvo_loop_cons (ty : String) (p : PageResp) (rest : List PageResp) :
    list_visible_objects_loop ty (p :: rest) = (do
      let lines ← mapE (lvo_item ty) p.results
      if p.has_more then do
        let (ls, n, calls) ← list_visible_objects_loop ty rest
        Except.ok (lines ++ ls, p.results.length + n, calls + 1)
      else
        Except.ok (lines, p.results.length, 1)) := rfl

theorem lvo_loop_trace (ty : String) :
    ∀ (pages : List PageResp), traceTerm pages = true →
      ∀ ls, mapE (lvo_item ty) ((pages.map (·.results)).flatten) = .ok ls →
        list_visible_objects_loop ty pages
          = .ok (ls, ((pages.map (·.results)).flatten).length, pages.length) := by
  intro pages
  induction pages with
  | nil =>
      intro h
      simp [traceTerm] at h
  | cons p rest ih =>
      intro h ls hls
      have hflat : (((p :: rest).map (·.results)).flatten)
          = p.results ++ ((rest.map (·.results)).flatten) := by simp
      rw [hflat] at hls
      obtain ⟨ls₁, ls₂, h1, h2, h3⟩ := mapE_append_inv _ _ _ _ hls
      cases rest with
      | nil =>
          have hm : p.has_more = false := by simpa [traceTerm] using h
          rw [lvo_loop_cons, h1, except_bind_ok, hm]
          have h2' : ls₂ = [] := by
            cases h2
            rfl
          subst h2'
          subst h3
          simp
      | cons q rest' =>
          have h' : (p.has_more && traceTerm (q :: rest')) = true := h
          have hm : p.has_more = true := (Bool.and_eq_true _ _ |>.mp h').1
          have ht : traceTerm (q :: rest') = true := (Bool.and_eq_true _ _ |>.mp h').2
          have hrec := ih ht ls₂ h2
          rw [lvo_loop_cons, h1, except_bind_ok, hm, hrec]
          subst h3
          simp [except_bind_ok]

/-- C1: against any response trace whose has-more flag is true on every page
but the last and false on the last — regardless of the last page's (possibly
non-null) next cursor — each pagination loop makes exactly N endpoint calls
(N the number of pages) and collects or processes exactly the concatenation
of the pages' result items in server order: `query_data_source_pages`
returns the concatenated items and issues one request per page,
`list_all_data_sources` processes exactly the concatenated items (in order)
and counts them, and so does `list_visible_objects`. -/
theorem C1_pagination_exhaustive (pages : List PageResp)
    (h : traceTerm pages = true) :
    (∀ b c, ∃ reqs, query_pages_loop b c pages
        = some ((pages.map (·.results)).flatten, reqs) ∧
      reqs.length = pages.length) ∧
    (∀ b, query_data_source_pages b pages
        = some ((pages.map (·.results)).flatten)) ∧
    (∀ ts, mapE lads_item_title ((pages.map (·.results)).flatten) = .ok ts →
      list_all_data_sources_loop pages
        = .ok (ts, ((pages.map (·.results)).flatten).length, pages.length)) ∧
    (∀ ty ls, mapE (lvo_item ty) ((pages.map (·.results)).flatten) = .ok ls →
      list_visible_objects_loop ty pages
        = .ok (ls, ((pages.map (·.results)).flatten).length, pages.length)) := by
  refine ⟨fun b c => query_loop_trace b pages h c, fun b => ?_,
    fun ts hts => lads_loop_trace pages h ts hts,
    fun ty ls hls => lvo_loop_trace ty pages h ls hls⟩
  obtain ⟨reqs, hq, _⟩ := query_loop_trace b pages h Option.none
  unfold query_data_source_pages
  rw [hq]

theorem C1_witness :
    traceTerm c1trace = true ∧
    query_data_source_pages true c1trace = some [c1item1, c1item2] ∧
    list_all_data_sources_loop c1trace = .ok (["Alpha", ""], 2, 2) ∧
    list_visible_objects_loop "data_source" c1trace
      = .ok ([(.str "a1", "Alpha"), (.str "a2", "(no title returned)")], 2, 2) := by
  have h := C1_pagination_exhaustive c1trace rfl
  exact ⟨rfl, h.2.1 true,
    h.2.2.1 ["Alpha", ""] rfl,
    h.2.2.2 "data_source" [(.str "a1", "Alpha"), (.str "a2", "(no title returned)")] rfl⟩

/-! ### Exact-name lookup: claim C3 -/

theorem fds_page_matches_cons (db : String) (item : PyVal) (l : List PyVal) :
    fds_page_matches db (item :: l) = (do
      let m ← fds_item_matches db item
      let ms ← fds_page_matches db l
      Except.ok (if m then item :: ms else ms)) := rfl

theorem fds_page_matches_append_inv (db : String) :
    ∀ (l₁ l₂ : List PyVal) (ms : List PyVal),
      fds_page_matches db (l₁ ++ l₂) = .ok ms →
      ∃ ms₁ ms₂, fds_page_matches db l₁ = .ok ms₁ ∧
        fds_page_matches db l₂ = .ok ms₂ ∧ ms = ms₁ ++ ms₂ := by
  intro l₁
  induction l₁ with
  | nil =>
      intro l₂ ms h
      exact ⟨[], ms, rfl, h, rfl⟩
  | cons item l ih =>
      intro l₂ ms h
      rw [List.cons_append, fds_page_matches_cons] at h
      cases hf : fds_item_matches db item with
      | error e =>
          rw [hf, except_bind_error] at h
          exact absurd h (by simp)
      | ok m =>
          rw [hf, except_bind_ok] at h
          cases hm : fds_page_matches db (l ++ l₂) with
          | error e =>
              rw [hm, except_bind_error] at h
              exact absurd h (by simp)
          | ok ys =>
              rw [hm, except_bind_ok] at h
              cases h
              obtain ⟨ms₁, ms₂, h1, h2, h3⟩ := ih l₂ ys hm
              refine ⟨if m then item :: ms₁ else ms₁, ms₂, ?_, h2, ?_⟩
              · rw [fds_page_matches_cons, hf, except_bind_ok, h1, except_bind_ok]
              · cases m <;> simp [h3]

theorem fds_loop_cons (db : String) (p : PageResp) (rest : List PageResp) :
    fds_loop db (p :: rest) = (do
      let ms ← fds_page_matches db p.results
      if p.has_more then do
        let more ← fds_loop db rest
        Except.ok (ms ++ more)
      else
        Except.ok ms) := rfl

theorem fds_loop_trace (db : String) :
    ∀ (pages : List PageResp), traceTerm pages = true →
      ∀ ms, fds_page_matches db ((pages.map (·.results)).flatten) = .ok ms →
        fds_loop db pages = .ok ms := by
  intro pages
  induction pages with
  | nil =>
      intro h
      simp [traceTerm] at h
  | cons p rest ih =>
      intro h ms hms
      have hflat : (((p :: rest).map (·.results)).flatten)
          = p.results ++ ((rest.map (·.results)).flatten) := by simp
      rw [hflat] at hms
      obtain ⟨ms₁, ms₂, h1, h2, h3⟩ := fds_page_matches_append_inv _ _ _ _ hms
      cases rest with
      | nil =>
          have hm : p.has_more = false := by simpa [traceTerm] using h
          rw [fds_loop_cons, h1, except_bind_ok, hm]
          have h2' : ms₂ = [] := by
            cases h2
            rfl
          subst h2'
          subst h3
          simp
      | cons q rest' =>
          have h' : (p.has_more && traceTerm (q :: rest')) = true := h
          have hm : p.has_more = true := (Bool.and_eq_true _ _ |>.mp h').1
          have ht : traceTerm (q :: rest') = true := (Bool.and_eq_true _ _ |>.mp h').2
          have hrec := ih ht ms₂ h2
          rw [fds_loop_cons, h1, except_bind_ok, hm, hrec]
          subst h3
          simp [except_bind_ok]

theorem find_data_source_eq (db : String) (pages : List PageResp) :
    find_data_source_id_by_name db pages = (do
      let found ← fds_loop db pages
      match found with
      | [] => Except.error "LookupError"
      | m :: _ => pySubscript m "id") := rfl

theorem fds_item_matches_eq (db : String) (item : PyVal) :
    fds_item_matches db item = (do
      let o ← pyGet item "object"
      if !o.isStr "data_source" then Except.ok false
      else do
        let t ← extract_data_source_title item
        Except.ok (t == db)) := rfl

theorem pySubscript_dict (kvs : List (String × PyVal)) (k : String) :
    pySubscript (.dict kvs) k = (match kvLookup kvs k with
      | some w => .ok w
      | Option.none => .error "KeyError") := rfl

/-- C3: `find_data_source_id_by_name` matches a candidate exactly when it is
a data-source object whose extracted (whitespace-trimmed) title equals the
target string under case-sensitive string equality — non-data-source items
are skipped and no other normalization is applied; it raises the lookup
error if and only if no candidate matches, and with one or more matches it
returns `matches[0]["id"]`, the id of the first match in search-result
order, rather than erroring on ambiguity. -/
theorem C3_find_data_source_exact_match (db_name : String)
    (pages : List PageResp) (ms : List PyVal)
    (h : traceTerm pages = true)
    (hms : fds_page_matches db_name ((pages.map (·.results)).flatten) = .ok ms) :
    (find_data_source_id_by_name db_name pages = .error "LookupError" ↔ ms = []) ∧
    (∀ m rest, ms = m :: rest →
      find_data_source_id_by_name db_name pages = pySubscript m "id") ∧
    (∀ item t, pyGet item "object" = .ok (.str "data_source") →
      extract_data_source_title item = .ok t →
      fds_item_matches db_name item = .ok (t == db_name)) ∧
    (∀ item o, pyGet item "object" = .ok o → o.isStr "data_source" = false →
      fds_item_matches db_name item = .ok false) := by
  have hloop : fds_loop db_name pages = .ok ms := fds_loop_trace db_name pages h ms hms
  have hfind := find_data_source_eq db_name pages
  rw [hloop, except_bind_ok] at hfind
  refine ⟨?_, ?_, ?_, ?_⟩
  · cases ms with
    | nil => exact ⟨fun _ => rfl, fun _ => hfind⟩
    | cons m rest =>
        simp only [hfind]
        constructor
        · intro hsub
          cases m with
          | dict kvs =>
              rw [pySubscript_dict] at hsub
              cases hk : kvLookup kvs "id" with
              | none =>
                  rw [hk] at hsub
                  exact absurd (Except.error.inj hsub) (by decide)
              | some w =>
                  rw [hk] at hsub
                  exact absurd hsub (by simp)
          | none => exact absurd (Except.error.inj hsub) (by decide)
          | str s => exact absurd (Except.error.inj hsub) (by decide)
          | int n => exact absurd (Except.error.inj hsub) (by decide)
          | bool b => exact absurd (Except.error.inj hsub) (by decide)
          | list xs => exact absurd (Except.error.inj hsub) (by decide)
        · intro hcontra
          exact absurd hcontra (by simp)
  · intro m rest hcons
    rw [hcons] at hfind
    exact hfind
  · intro item t h1 h2
    rw [fds_item_matches_eq, h1, except_bind_ok]
    have : (PyVal.str "data_source").isStr "data_source" = true := by decide
    rw [this]
    show (do
      let t ← extract_data_source_title item
      Except.ok (t == db_name) : Except String Bool) = _
    rw [h2, except_bind_ok]
  · intro item o h1 h2
    rw [fds_item_matches_eq, h1, except_bind_ok, h2]
    rfl

theorem C3_witness :
    traceTerm projTrace = true ∧
    fds_page_matches "Projects" [projDs1, projDs2, projDs3]
      = .ok [projDs1, projDs3] ∧
    extract_data_source_title projDs3 = .ok "Projects" ∧
    extract_data_source_title projDs2 = .ok "projects" ∧
    find_data_source_id_by_name "Projects" projTrace = .ok (.str "id1") := by
  have h := C3_find_data_source_exact_match "Projects" projTrace
    [projDs1, projDs3] rfl rfl
  refine ⟨rfl, rfl, rfl, rfl, ?_⟩
  rw [h.2.1 projDs1 [projDs3] rfl]
  rfl

/-! ### OAuth relay callback: claim C7 -/

/-- C7: when the callback endpoint is invoked without an oauth_verifier
parameter (and the stored request-token file is readable), it answers with
status 400 — a 400-class client error — performs no token exchange, and
leaves the token file content unchanged. -/
theorem C7_callback_missing_verifier (kvs : List (String × PyVal))
    (tok sec : PyVal) (fetch : PyVal → PyVal → String → PyVal)
    (h1 : kvLookup kvs "request_oauth_token" = some tok)
    (h2 : kvLookup kvs "request_oauth_token_secret" = some sec) :
    ∃ out, callback (some (.dict kvs)) Option.none fetch = .ok out ∧
      400 ≤ out.status ∧ out.status < 500 ∧ out.exchanged = false ∧
      out.file = .dict kvs := by
  have e : callback (some (.dict kvs)) Option.none fetch
      = (pySubscript (.dict kvs) "request_oauth_token" >>= fun _ =>
         pySubscript (.dict kvs) "request_oauth_token_secret" >>= fun _ =>
         Except.ok { status := 400, file := PyVal.dict kvs, exchanged := false }) :=
    rfl
  refine ⟨⟨400, .dict kvs, false⟩, ?_, by norm_num, by norm_num, rfl, rfl⟩
  rw [e, pySubscript_dict, h1, except_bind_ok, pySubscript_dict, h2, except_bind_ok]

theorem C7_witness :
    kvLookup [("request_oauth_token", .str "rt"),
      ("request_oauth_token_secret", .str "rs")] "request_oauth_token"
      = some (.str "rt") ∧
    ∃ out, callback
        (some (.dict [("request_oauth_token", .str "rt"),
          ("request_oauth_token_secret", .str "rs")]))
        Option.none (fun _ _ _ => .dict []) = .ok out ∧
      400 ≤ out.status ∧ out.status < 500 ∧ out.exchanged = false ∧
      out.file = .dict [("request_oauth_token", .str "rt"),
        ("request_oauth_token_secret", .str "rs")] :=
  ⟨rfl, C7_callback_missing_verifier _ (.str "rt") (.str "rs")
    (fun _ _ _ => .dict []) rfl rfl⟩

/-! ### ENEX reporting: claim C9 -/

/-- C9: on a readable input, the ENEX command reports the total number of
collected titles and the number of empty titles, and exits non-zero exactly
when the fail-on-empty-title flag is set and at least one collected title is
empty (and with 0 otherwise; the only codes it produces there are 0 and 1). -/
theorem C9_enex_exit_code (notes : List (Option (Option String)))
    (pf fof : Bool) (total ec : Nat) (printed : List String) (code : Nat)
    (h : enex_main true notes pf fof = .report total ec printed code) :
    total = (parse_enex_titles notes).length ∧
    ec = ((parse_enex_titles notes).filter (fun t => t = "")).length ∧
    printed = (if pf then parse_enex_titles notes else []) ∧
    (code ≠ 0 ↔ (fof = true ∧ "" ∈ parse_enex_titles notes)) ∧
    (code = 0 ∨ code = 1) := by
  have e : enex_main true notes pf fof
      = .report (parse_enex_titles notes).length
          ((parse_enex_titles notes).filter (fun t => t = "")).length
          (if pf then parse_enex_titles notes else [])
          (if fof &&
              !((parse_enex_titles notes).filter (fun t => t = "")).isEmpty
            then 1 else 0) := by
    show EnexOutcome.report _ _ _
        (if fof && decide
            (((parse_enex_titles notes).filter (fun t => t = "")).length ≠ 0)
          then 1 else 0) = _
    congr 1
    rcases fof with _ | _ <;>
      rcases hf : (parse_enex_titles notes).filter (fun t => t = "") with _ | ⟨a, l⟩ <;>
        simp [hf]
  rw [e] at h
  injection h.symm with htot hec hpr hcode
  subst htot
  subst hec
  subst hpr
  subst hcode
  refine ⟨rfl, rfl, rfl, ?_, ?_⟩
  · constructor
    · intro hne
      rcases fof with _ | _
      · simp at hne
      · refine ⟨rfl, ?_⟩
        rcases hf : (parse_enex_titles notes).filter (fun t => t = "") with _ | ⟨a, l⟩
        · rw [hf] at hne
          simp at hne
        · have ha : a ∈ (parse_enex_titles notes).filter (fun t => t = "") := by
            rw [hf]
            exact List.mem_cons_self a l
          have := List.mem_filter.mp ha
          have ha' : a = "" := by simpa using this.2
          rw [← ha']
          exact this.1
    · rintro ⟨rfl, hmem⟩
      have : "" ∈ (parse_enex_titles notes).filter (fun t => t = "") :=
        List.mem_filter.mpr ⟨hmem, by simp⟩
      rcases hf : (parse_enex_titles notes).filter (fun t => t = "") with _ | ⟨a, l⟩
      · rw [hf] at this
        simp at this
      · simp
  · rcases fof with _ | _ <;>
      rcases (parse_enex_titles notes).filter (fun t => t = "") with _ | ⟨a, l⟩ <;>
        simp

theorem C9_witness :
    enex_main true [some (some "Alpha"), some (some "")] false true
      = .report 2 1 [] 1 ∧
    (2 = (parse_enex_titles [some (some "Alpha"), some (some "")]).length ∧
      1 = ((parse_enex_titles [some (some "Alpha"), some (some "")]).filter
            (fun t => t = "")).length ∧
      ([] : List String)
        = (if false then parse_enex_titles [some (some "Alpha"), some (some "")]
           else []) ∧
      ((1 : Nat) ≠ 0 ↔ (true = true ∧
        "" ∈ parse_enex_titles [some (some "Alpha"), some (some "")])) ∧
      ((1 : Nat) = 0 ∨ (1 : Nat) = 1)) :=
  ⟨rfl, C9_enex_exit_code [some (some "Alpha"), some (some "")] false true
    2 1 [] 1 rfl⟩

theorem pyGetD_dict_eq (kvs : List (String × PyVal)) (k : String) (dflt : PyVal) :
    pyGetD (.dict kvs) k dflt
      = (match kvLookup kvs k with
         | some w => .ok w
         | Option.none => .ok dflt) := rfl

theorem totGet_dict_eq (kvs : List (String × PyVal)) (k : String) :
    totGet (.dict kvs) k = (kvLookup kvs k).getD .none := rfl

theorem totGetD_dict_eq (kvs : List (String × PyVal)) (k : String) (dflt : PyVal) :
    totGetD (.dict kvs) k dflt = (kvLookup kvs k).getD dflt := rfl

theorem totRtFrag_dict_eq (kvs : List (String × PyVal)) :
    totRtFrag (.dict kvs)
      = (match kvLookup kvs "plain_text" with
         | some (.str s) => s
         | _ => "") := rfl

theorem rtElemOkB_dict_eq (kvs : List (String × PyVal)) :
    rtElemOkB (.dict kvs)
      = (match kvLookup kvs "plain_text" with
         | some (.str _) => true
         | some _ => false
         | Option.none => true) := rfl

theorem pyGet_dict (kvs : List (String × PyVal)) (k : String) :
    pyGet (.dict kvs) k = .ok (totGet (.dict kvs) k) := by
  show pyGetD (.dict kvs) k .none = .ok (totGet (.dict kvs) k)
  rw [pyGetD_dict_eq, totGet_dict_eq]
  cases kvLookup kvs k <;> rfl

theorem pyGetD_dict (kvs : List (String × PyVal)) (k : String) (dflt : PyVal) :
    pyGetD (.dict kvs) k dflt = .ok (totGetD (.dict kvs) k dflt) := by
  rw [pyGetD_dict_eq, totGetD_dict_eq]
  cases kvLookup kvs k <;> rfl

theorem rtConcat_ok : ∀ (xs : List PyVal), xs.all rtElemOkB = true →
    rtConcat xs = .ok (totRtConcat xs) := by
  intro xs
  induction xs with
  | nil => intro _; rfl
  | cons x l ih =>
      intro h
      rw [List.all_cons, Bool.and_eq_true] at h
      obtain ⟨hx, hl⟩ := h
      cases x with
      | dict kvs =>
          rw [rtElemOkB_dict_eq] at hx
          cases hk : kvLookup kvs "plain_text" with
          | none =>
              have e : pyGetD (.dict kvs) "plain_text" (.str "") = .ok (.str "") := by
                rw [pyGetD_dict_eq, hk]
              have ef : totRtFrag (.dict kvs) = "" := by
                rw [totRtFrag_dict_eq, hk]
              simp only [rtConcat, totRtConcat]
              rw [e, except_bind_ok, ih hl]
              show Except.ok (("" : String) ++ totRtConcat l)
                = Except.ok (totRtFrag (.dict kvs) ++ totRtConcat l)
              rw [ef]
          | some p =>
              rw [hk] at hx
              cases p with
              | str s =>
                  have e : pyGetD (.dict kvs) "plain_text" (.str "")
                      = .ok (.str s) := by
                    rw [pyGetD_dict_eq, hk]
                  have ef : totRtFrag (.dict kvs) = s := by
                    rw [totRtFrag_dict_eq, hk]
                  simp only [rtConcat, totRtConcat]
                  rw [e, except_bind_ok, ih hl]
                  show Except.ok (s ++ totRtConcat l)
                    = Except.ok (totRtFrag (.dict kvs) ++ totRtConcat l)
                  rw [ef]
              | none => simp at hx
              | int n => simp at hx
              | bool b => simp at hx
              | list ys => simp at hx
              | dict kvs2 => simp at hx
      | none => simp [rtElemOkB] at hx
      | str s => simp [rtElemOkB] at hx
      | int n => simp [rtElemOkB] at hx
      | bool b => simp [rtElemOkB] at hx
      | list ys => simp [rtElemOkB] at hx

theorem rt_to_text_ok {v : PyVal} (h : rtOkB v = true) :
    _rt_to_text v = .ok (totRtText v) := by
  cases v with
  | list xs =>
      have hc := rtConcat_ok xs (by simpa [rtOkB] using h)
      simp only [_rt_to_text, totRtText]
      rw [hc, except_bind_ok]
  | none => rfl
  | str s => rfl
  | int n => rfl
  | bool b => rfl
  | dict kvs => rfl

theorem extract_ds_eq (ds : PyVal) :
    extract_data_source_title ds
      = (pyGet ds "title" >>= fun tv =>
         _rt_to_text tv >>= fun t =>
         if t ≠ "" then .ok t
         else
           pyGet ds "name" >>= fun name =>
           match name with
           | .str n => if pyStrip n ≠ "" then .ok (pyStrip n) else .ok ""
           | _ => .ok "") := rfl

theorem extract_ds_amended {item : PyVal} (h : dsItemOkB item = true) :
    extract_data_source_title item = .ok (amendedDsTitle item) := by
  cases item with
  | dict kvs =>
      have hrt : rtOkB (totGet (.dict kvs) "title") = true := by
        simpa [dsItemOkB] using h
      rw [extract_ds_eq, pyGet_dict, except_bind_ok, rt_to_text_ok hrt,
        except_bind_ok]
      by_cases ht : totRtText (totGet (.dict kvs) "title") = ""
      · rw [if_neg (fun hne => hne ht), pyGet_dict, except_bind_ok]
        have ha : amendedDsTitle (.dict kvs)
            = (match totGet (.dict kvs) "name" with
               | .str n => pyStrip n
               | _ => "") := by
          simp only [amendedDsTitle]
          rw [if_neg (fun hne => hne ht)]
        rw [ha]
        cases totGet (.dict kvs) "name" with
        | str n =>
            show (if pyStrip n ≠ "" then Except.ok (pyStrip n) else Except.ok "")
              = Except.ok (pyStrip n)
            by_cases hs : pyStrip n = ""
            · rw [if_neg (fun hne => hne hs), hs]
            · rw [if_pos hs]
        | none => rfl
        | int m => rfl
        | bool b => rfl
        | list ys => rfl
        | dict kvs2 => rfl
      · rw [if_pos ht]
        have ha : amendedDsTitle (.dict kvs)
            = totRtText (totGet (.dict kvs) "title") := by
          simp only [amendedDsTitle]
          rw [if_pos ht]
        rw [ha]
  | none => simp [dsItemOkB] at h
  | str s => simp [dsItemOkB] at h
  | int n => simp [dsItemOkB] at h
  | bool b => simp [dsItemOkB] at h
  | list xs => simp [dsItemOkB] at h

theorem extract_page_eq (page : PyVal) :
    extract_page_title page
      = (pyGetD page "properties" (.dict []) >>= fun props0 =>
         match (if props0.truthy then props0 else .dict []) with
         | .dict kvs =>
             findTitleProp (kvs.map (·.2)) >>= fun o =>
             match o with
             | some prop => pyGet prop "title" >>= fun tv => _rt_to_text tv
             | Option.none => pyGet page "title" >>= fun tv => _rt_to_text tv
         | _ => .error "AttributeError") := rfl

theorem findTitleProp_ok : ∀ (l : List PyVal), l.all isDictB = true →
    findTitleProp l = .ok (l.find? (fun p => (totGet p "type").isStr "title")) := by
  intro l
  induction l with
  | nil => intro _; rfl
  | cons p rest ih =>
      intro h
      rw [List.all_cons, Bool.and_eq_true] at h
      obtain ⟨hp, hrest⟩ := h
      cases p with
      | dict kvs =>
          simp only [findTitleProp]
          rw [pyGet_dict, except_bind_ok]
          by_cases htp : ((totGet (.dict kvs) "type").isStr "title") = true
          · have hfind : List.find? (fun p => (totGet p "type").isStr "title")
                (PyVal.dict kvs :: rest) = some (.dict kvs) :=
              List.find?_cons_of_pos rest (by simpa using htp)
            rw [htp, hfind]
            simp
          · have hfind : List.find? (fun p => (totGet p "type").isStr "title")
                (PyVal.dict kvs :: rest)
                = List.find? (fun p => (totGet p "type").isStr "title") rest :=
              List.find?_cons_of_neg rest (by simpa using htp)
            have htp' : ((totGet (.dict kvs) "type").isStr "title") = false := by
              simpa using htp
            rw [htp', hfind, ih hrest]
            simp
      | none => simp [isDictB] at hp
      | str s => simp [isDictB] at hp
      | int n => simp [isDictB] at hp
      | bool b => simp [isDictB] at hp
      | list ys => simp [isDictB] at hp

theorem titlePropOf_dict (kvs pkvs : List (String × PyVal))
    (hpv : pagePropsVal (.dict kvs) = .dict pkvs) :
    titlePropOf (.dict kvs)
      = (pkvs.find? (fun kv => (totGet kv.2 "type").isStr "title")).map (·.2) := by
  unfold titlePropOf
  rw [hpv]

theorem extract_page_amended {item : PyVal} (h : pageItemOkB item = true) :
    extract_page_title item = .ok (amendedPageTitle item) := by
  cases item with
  | dict kvs =>
      have h' : ((match pagePropsVal (.dict kvs) with
          | .dict pkvs => pkvs.all fun kv => isDictB kv.2
          | _ => false) &&
         (match titlePropOf (.dict kvs) with
          | some prop => rtOkB (totGet prop "title")
          | Option.none => rtOkB (totGet (.dict kvs) "title"))) = true := h
      obtain ⟨h1, h2⟩ := (Bool.and_eq_true _ _).mp h'
      cases hpv : pagePropsVal (.dict kvs) with
      | dict pkvs =>
          have hall : (pkvs.all fun kv => isDictB kv.2) = true := by
            rw [hpv] at h1
            exact h1
          have htpo := titlePropOf_dict kvs pkvs hpv
          rw [extract_page_eq, pyGetD_dict, except_bind_ok]
          have hscrut : (if (totGetD (.dict kvs) "properties" (.dict [])).truthy
              then totGetD (.dict kvs) "properties" (.dict []) else .dict [])
              = pagePropsVal (.dict kvs) := rfl
          rw [hscrut, hpv]
          show (findTitleProp (pkvs.map (·.2)) >>= fun o =>
             match o with
             | some prop => pyGet prop "title" >>= fun tv => _rt_to_text tv
             | Option.none => pyGet (.dict kvs) "title" >>= fun tv => _rt_to_text tv)
            = Except.ok (amendedPageTitle (.dict kvs))
          have hmap : ((pkvs.map (·.2)).all isDictB) = true := by
            rw [List.all_eq_true] at hall ⊢
            intro x hx
            obtain ⟨kv, hkv, rfl⟩ := List.mem_map.mp hx
            exact hall kv hkv
          rw [findTitleProp_ok _ hmap, except_bind_ok]
          have hfm : (pkvs.map (·.2)).find? (fun p => (totGet p "type").isStr "title")
              = titlePropOf (.dict kvs) := by
            rw [List.find?_map, htpo]
            rfl
          rw [hfm]
          cases hto : titlePropOf (.dict kvs) with
          | none =>
              have h2' : rtOkB (totGet (.dict kvs) "title") = true := by
                rw [hto] at h2
                exact h2
              show (pyGet (.dict kvs) "title" >>= fun tv => _rt_to_text tv)
                = Except.ok (amendedPageTitle (.dict kvs))
              rw [pyGet_dict, except_bind_ok, rt_to_text_ok h2']
              have ha : amendedPageTitle (.dict kvs)
                  = totRtText (totGet (.dict kvs) "title") := by
                unfold amendedPageTitle
                rw [hto]
              rw [ha]
          | some prop =>
              have h2' : rtOkB (totGet prop "title") = true := by
                rw [hto] at h2
                exact h2
              have hmem : prop ∈ pkvs.map (·.2) :=
                List.mem_of_find?_eq_some (by rw [hfm, hto])
              have hdict : isDictB prop = true := by
                have hx := List.all_eq_true.mp hmap prop hmem
                simpa using hx
              cases prop with
              | dict prkvs =>
                  show (pyGet (.dict prkvs) "title" >>= fun tv => _rt_to_text tv)
                    = Except.ok (amendedPageTitle (.dict kvs))
                  rw [pyGet_dict, except_bind_ok, rt_to_text_ok h2']
                  have ha : amendedPageTitle (.dict kvs)
                      = totRtText (totGet (.dict prkvs) "title") := by
                    unfold amendedPageTitle
                    rw [hto]
                  rw [ha]
              | none => simp [isDictB] at hdict
              | str s => simp [isDictB] at hdict
              | int n => simp [isDictB] at hdict
              | bool b => simp [isDictB] at hdict
              | list ys => simp [isDictB] at hdict
      | none =>
          rw [hpv] at h1
          exact absurd h1 (by simp)
      | str s =>
          rw [hpv] at h1
          exact absurd h1 (by simp)
      | int n =>
          rw [hpv] at h1
          exact absurd h1 (by simp)
      | bool b =>
          rw [hpv] at h1
          exact absurd h1 (by simp)
      | list ys =>
          rw [hpv] at h1
          exact absurd h1 (by simp)
  | none => simp [pageItemOkB] at h
  | str s => simp [pageItemOkB] at h
  | int n => simp [pageItemOkB] at h
  | bool b => simp [pageItemOkB] at h
  | list xs => simp [pageItemOkB] at h

/-- C2 counterexample: the cited extractors do not implement the claimed
five-rule chain. `extract_data_source_title` never falls back to the
identifier (rule 4): on an object with only an id it returns "" where the
five-rule chain returns the id. And `extract_page_title` checks the
title-typed property before the top-level title field, returning its text
even when empty, where the claimed first-non-empty order returns the
top-level title. -/
theorem C2_counterexample :
    extract_data_source_title c2dsOnlyId = .ok "" ∧
    claimFiveRuleTitle c2dsOnlyId = "abc" ∧
    extract_data_source_title c2dsOnlyId ≠ .ok (claimFiveRuleTitle c2dsOnlyId) ∧
    extract_page_title c2pageShadow = .ok "" ∧
    claimFiveRuleTitle c2pageShadow = "Top" ∧
    extract_page_title c2pageShadow ≠ .ok (claimFiveRuleTitle c2pageShadow) := by
  refine ⟨rfl, rfl, ?_, rfl, rfl, ?_⟩
  · intro hcontra
    exact absurd (Except.ok.inj hcontra) (by decide)
  · intro hcontra
    exact absurd (Except.ok.inj hcontra) (by decide)

/-- C2 amended: on well-shaped items the extractors implement a shorter
fallback chain than claimed. `extract_data_source_title` returns the trimmed
rich-text title when non-empty, else the trimmed string name, else the empty
string — never the identifier; `extract_page_title` scans the title-typed
properties first, returns that property's rich text even when it is empty,
and only without any title-typed property falls back to the top-level
rich-text title — never to the identifier. -/
theorem C2_amended_extractors (item : PyVal) :
    (dsItemOkB item = true →
      extract_data_source_title item = .ok (amendedDsTitle item)) ∧
    (pageItemOkB item = true →
      extract_page_title item = .ok (amendedPageTitle item)) :=
  ⟨fun h => extract_ds_amended h, fun h => extract_page_amended h⟩

theorem C2_witness :
    dsItemOkB c2wItem = true ∧ pageItemOkB c2wItem = true ∧
    extract_data_source_title c2wItem = .ok "T" ∧
    extract_page_title c2wItem = .ok "T" ∧
    amendedDsTitle c2wItem = "T" ∧ amendedPageTitle c2wItem = "T" := by
  have h := C2_amended_extractors c2wItem
  exact ⟨rfl, rfl, (h.1 rfl).trans rfl, (h.2 rfl).trans rfl, rfl, rfl⟩

theorem object_display_name_eq (obj : PyVal) :
    object_display_name obj
      = (pyGet obj "object" >>= fun o =>
         if o.isStr "page" then
           pyGet obj "title" >>= fun tv =>
           title_from_rich_text_array tv >>= fun t =>
           if t ≠ "" then .ok (.str t) else pyGetD obj "id" (.str "")
         else if o.isStr "data_source" then
           pyGet obj "title" >>= fun tv =>
           title_from_rich_text_array tv >>= fun t =>
           if t ≠ "" then .ok (.str t)
           else
             pyGet obj "name" >>= fun name =>
             match name with
             | .str n => .ok (.str (pyStrip n))
             | _ => pyGetD obj "id" (.str "")
         else pyGetD obj "id" (.str "")) := rfl

/-- C6 counterexample: title extraction can raise. A page object whose
title field is a list holding a bare string (not a rich-text fragment
object) makes `object_display_name` raise AttributeError (`"x".get` in
Python), instead of degrading to an empty title. -/
theorem C6_counterexample :
    object_display_name (.dict [("object", .str "page"), ("title", .list [.str "x"])])
      = .error "AttributeError" := rfl

/-- C6 amended: extraction never raises provided every element of a
rich-text run list is an object whose plain_text, when present, is a string.
Under that shape condition `object_display_name` always succeeds, an
unrecognized object type degrades to identifier-only display, and
`_rt_to_text` tolerates missing, null or non-list shapes (and the empty run
list) by returning the empty-string title. -/
theorem C6_amended_shape_tolerance (obj : PyVal) :
    (∀ kvs, obj = .dict kvs → rtOkB (totGet obj "title") = true →
      ∃ v, object_display_name obj = .ok v) ∧
    (∀ kvs o, obj = .dict kvs → pyGet obj "object" = .ok o →
      o.isStr "page" = false → o.isStr "data_source" = false →
      object_display_name obj = .ok (totGetD obj "id" (.str ""))) ∧
    ((∀ xs, obj ≠ .list xs) → _rt_to_text obj = .ok "") ∧
    _rt_to_text (.list []) = .ok "" := by
  refine ⟨?_, ?_, ?_, rfl⟩
  · rintro kvs rfl hrt
    rw [object_display_name_eq, pyGet_dict, except_bind_ok]
    by_cases hp : (totGet (.dict kvs) "object").isStr "page" = true
    · rw [if_pos hp, pyGet_dict, except_bind_ok, tfrta_eq_rt, rt_to_text_ok hrt,
        except_bind_ok]
      by_cases ht : totRtText (totGet (.dict kvs) "title") = ""
      · rw [if_neg (fun hne => hne ht), pyGetD_dict]
        exact ⟨_, rfl⟩
      · rw [if_pos ht]
        exact ⟨_, rfl⟩
    · rw [if_neg hp]
      by_cases hd : (totGet (.dict kvs) "object").isStr "data_source" = true
      · rw [if_pos hd, pyGet_dict, except_bind_ok, tfrta_eq_rt, rt_to_text_ok hrt,
          except_bind_ok]
        by_cases ht : totRtText (totGet (.dict kvs) "title") = ""
        · rw [if_neg (fun hne => hne ht), pyGet_dict, except_bind_ok]
          cases totGet (.dict kvs) "name" with
          | str n => exact ⟨_, rfl⟩
          | none => exact ⟨_, pyGetD_dict kvs "id" (.str "")⟩
          | int m => exact ⟨_, pyGetD_dict kvs "id" (.str "")⟩
          | bool b => exact ⟨_, pyGetD_dict kvs "id" (.str "")⟩
          | list ys => exact ⟨_, pyGetD_dict kvs "id" (.str "")⟩
          | dict kvs2 => exact ⟨_, pyGetD_dict kvs "id" (.str "")⟩
        · rw [if_pos ht]
          exact ⟨_, rfl⟩
      · rw [if_neg hd, pyGetD_dict]
        exact ⟨_, rfl⟩
  · rintro kvs o rfl hobj hp hd
    rw [object_display_name_eq, hobj, except_bind_ok, if_neg (by simp [hp]),
      if_neg (by simp [hd]), pyGetD_dict]
  · intro hnl
    cases obj with
    | list xs => exact absurd rfl (hnl xs)
    | none => rfl
    | str s => rfl
    | int n => rfl
    | bool b => rfl
    | dict kvs => rfl

theorem C6_witness :
    rtOkB (totGet (.dict [("object", .str "note"), ("id", .str "xyz")]) "title")
      = true ∧
    pyGet (.dict [("object", .str "note"), ("id", .str "xyz")]) "object"
      = .ok (.str "note") ∧
    object_display_name (.dict [("object", .str "note"), ("id", .str "xyz")])
      = .ok (.str "xyz") ∧
    _rt_to_text .none = .ok "" := by
  have h := C6_amended_shape_tolerance
    (.dict [("object", .str "note"), ("id", .str "xyz")])
  refine ⟨rfl, rfl, ?_, ?_⟩
  · exact (h.2.1 _ (.str "note") rfl rfl rfl rfl).trans rfl
  · exact (C6_amended_shape_tolerance PyVal.none).2.2.1
      (fun xs hx => PyVal.noConfusion hx)
